import Mathlib

/-!
Verification of the task-manager service (`applications/task-manager/main.py`).

The service stores tasks in a single `tasks` table and gates every mutation
with a per-task watermark (`last_request_timestamp`).  We embed the table as a
list of task records together with the next value of the `SERIAL` id column,
and each HTTP handler as a function from a store (and the request payload) to
an `Except` of the error kind it raises or the resulting store and payload.
Timestamps are modelled as integers: the handlers only ever compare them.
-/

namespace TaskManager

/-- A row of the `tasks` table (`init_database` DDL, main.py lines 140-155). -/
structure Task where
  id : Nat
  title : String
  content : String
  dueDate : String
  done : Bool
  createdAt : Int
  updatedAt : Int
  lastRequestTimestamp : Int
  deriving Repr, DecidableEq

/-- The `tasks` table: its rows in insertion order, plus the next `SERIAL` id. -/
structure Store where
  tasks : List Task
  nextId : Nat
  deriving Repr, DecidableEq

/-- Error kinds raised by the handlers (HTTP 400 / 401 / 404 / 409). -/
inductive ApiError where
  | invalidRequest
  | unauthorized
  | notFound
  | conflict
  deriving Repr, DecidableEq

/-- The identity `verify_token` returns on success (main.py line 189). -/
structure UserContext where
  user_id : String
  scopes : List String
  deriving Repr, DecidableEq

/-- `verify_token` (main.py lines 173-189): reject when the bearer token is
falsy or shorter than 10 characters, otherwise return the fixed demo user. -/
def verify_token (token : String) : Except ApiError UserContext :=
  if token = "" || token.length < 10 then
    .error .unauthorized
  else
    .ok ⟨"demo_user", ["read", "write"]⟩

/-- Payload of `POST /tasks` (`TaskCreate` model). -/
structure TaskCreate where
  title : String
  content : String
  due_date : String
  request_timestamp : Int
  deriving Repr, DecidableEq

/-- Payload of `PUT /tasks/:id` (`TaskUpdate` model): all data fields optional. -/
structure TaskUpdate where
  title : Option String
  content : Option String
  due_date : Option String
  done : Option Bool
  request_timestamp : Int
  deriving Repr, DecidableEq

/-- Payload of `DELETE /tasks/:id` (`TaskDelete` model). -/
structure TaskDelete where
  request_timestamp : Int
  deriving Repr, DecidableEq

/-- `SELECT ... FROM tasks WHERE id = $1` (first matching row). -/
def findTask (s : Store) (id : Nat) : Option Task :=
  s.tasks.find? (fun t => decide (t.id = id))

/-- The watermark currently stored for a task id, when the row exists. -/
def watermarkOf (s : Store) (id : Nat) : Option Int :=
  (findTask s id).map (·.lastRequestTimestamp)

/-- `create_task` (main.py lines 244-291): reject `409 Conflict` when a row
with the same title has `last_request_timestamp >= request_timestamp`;
otherwise insert a fresh row with `done` defaulted to `FALSE`, `created_at`
and `updated_at` both defaulted to `NOW()`, and the watermark set to the
request timestamp. -/
def create_task (s : Store) (req : TaskCreate) (now : Int) :
    Except ApiError (Store × Task) :=
  if s.tasks.any (fun t => decide (t.title = req.title) &&
      decide (req.request_timestamp ≤ t.lastRequestTimestamp)) then
    .error .conflict
  else
    let newTask : Task :=
      { id := s.nextId
        title := req.title
        content := req.content
        dueDate := req.due_date
        done := false
        createdAt := now
        updatedAt := now
        lastRequestTimestamp := req.request_timestamp }
    .ok ({ tasks := s.tasks ++ [newTask], nextId := s.nextId + 1 }, newTask)

/-- `list_tasks` (main.py lines 303-342):
`SELECT ... FROM tasks ORDER BY created_at DESC`, no write. -/
def list_tasks (s : Store) : Store × List Task :=
  (s, s.tasks.mergeSort (fun a b => decide (b.createdAt ≤ a.createdAt)))

/-- `get_task` (main.py lines 345-390): `SELECT ... WHERE id = $1`, `404` when
absent, no write. -/
def get_task (s : Store) (id : Nat) : Except ApiError (Store × Task) :=
  match findTask s id with
  | none => .error .notFound
  | some t => .ok (s, t)

/-- The `SET` clauses of `update_task` applied to a row: each supplied field
overwrites the column, absent fields leave it, and `updated_at = NOW()` and
`last_request_timestamp = $n` are always set (main.py lines 434-464). -/
def applyFields (req : TaskUpdate) (t : Task) (now : Int) : Task :=
  { t with
    title := req.title.getD t.title
    content := req.content.getD t.content
    dueDate := req.due_date.getD t.dueDate
    done := req.done.getD t.done
    updatedAt := now
    lastRequestTimestamp := req.request_timestamp }

/-- How many optional fields the update supplies (the `SET` clauses collected
from `title`, `content`, `due_date`, `done` in main.py lines 439-457). -/
def suppliedFieldCount (req : TaskUpdate) : Nat :=
  (if req.title.isSome then 1 else 0) +
  (if req.content.isSome then 1 else 0) +
  (if req.due_date.isSome then 1 else 0) +
  (if req.done.isSome then 1 else 0)

/-- `update_task` (main.py lines 393-502): `404` when the id is absent;
`409 Conflict` when the request timestamp is not strictly newer than the
stored watermark; then the source appends the two unconditional clauses
`updated_at = NOW()` and `last_request_timestamp = $n` to the `SET` list
BEFORE testing it for emptiness (lines 459-470), so the
`400 No fields to update` branch tests `suppliedFieldCount req + 2 = 0` and
can never fire; finally the row is rewritten in place. -/
def update_task (s : Store) (id : Nat) (req : TaskUpdate) (now : Int) :
    Except ApiError (Store × Task) :=
  match findTask s id with
  | none => .error .notFound
  | some current =>
    if req.request_timestamp ≤ current.lastRequestTimestamp then
      .error .conflict
    else
      if suppliedFieldCount req + 2 = 0 then
        .error .invalidRequest
      else
        let t' := applyFields req current now
        .ok ({ s with tasks := s.tasks.map (fun u => if u.id = id then t' else u) }, t')

/-- `delete_task` (main.py lines 505-554): `404` when the id is absent;
`409 Conflict` when the request timestamp is not strictly newer than the
stored watermark; otherwise `DELETE FROM tasks WHERE id = $1`. -/
def delete_task (s : Store) (id : Nat) (req : TaskDelete) :
    Except ApiError Store :=
  match findTask s id with
  | none => .error .notFound
  | some current =>
    if req.request_timestamp ≤ current.lastRequestTimestamp then
      .error .conflict
    else
      .ok { s with tasks := s.tasks.filter (fun u => decide (u.id ≠ id)) }

/-- One mutating request against the service. -/
inductive Op where
  | create (req : TaskCreate) (now : Int)
  | update (id : Nat) (req : TaskUpdate) (now : Int)
  | del (id : Nat) (req : TaskDelete)
  deriving Repr

/-- The store after a request: rejected requests leave it unchanged. -/
def applyOp (s : Store) (op : Op) : Store :=
  match op with
  | .create req now =>
    match create_task s req now with
    | .ok (s', _) => s'
    | .error _ => s
  | .update id req now =>
    match update_task s id req now with
    | .ok (s', _) => s'
    | .error _ => s
  | .del id req =>
    match delete_task s id req with
    | .ok s' => s'
    | .error _ => s

/-- The store after a sequence of requests. -/
def applyOps (s : Store) (ops : List Op) : Store :=
  ops.foldl applyOp s

/-- Well-formedness guaranteed by the `SERIAL PRIMARY KEY` column: every
stored id is below the next serial value, and ids are pairwise distinct. -/
def Store.WF (s : Store) : Prop :=
  (∀ t ∈ s.tasks, t.id < s.nextId) ∧ s.tasks.Pairwise (fun a b => a.id ≠ b.id)

/-- A concrete stored row used to evaluate the handlers on explicit inputs. -/
def sampleTask : Task :=
  { id := 1, title := "demo", content := "body", dueDate := "2024-01-01",
    done := false, createdAt := 0, updatedAt := 0, lastRequestTimestamp := 5 }

/-- A concrete one-row store used to evaluate the handlers on explicit inputs. -/
def sampleStore : Store := { tasks := [sampleTask], nextId := 2 }

/-- C10: `verify_token` rejects with Unauthorized exactly when the bearer
token is empty or shorter than 10 characters, and any token of length at
least 10 is accepted with the one fixed demo identity; the decision reads no
task state at all. -/
theorem verify_token_rejects_iff_short (tok : String) :
    (verify_token tok = .error .unauthorized ↔ (tok = "" ∨ tok.length < 10)) ∧
    (10 ≤ tok.length →
      verify_token tok = .ok ⟨"demo_user", ["read", "write"]⟩) := by
  unfold verify_token
  split_ifs with h
  · simp only [Bool.or_eq_true, decide_eq_true_eq] at h
    refine ⟨⟨fun _ => h, fun _ => rfl⟩, fun hlen => ?_⟩
    rcases h with h | h
    · subst h; exact absurd hlen (by decide)
    · omega
  · simp only [Bool.or_eq_true, decide_eq_true_eq, not_or] at h
    refine ⟨⟨fun hcontra => ?_, fun hor => absurd hor (by tauto)⟩, fun _ => rfl⟩
    cases hcontra

/-- Closed instance of the C10 theorem at a concrete token. -/
theorem verify_token_rejects_iff_short_witness :
    verify_token "0123456789" = .ok ⟨"demo_user", ["read", "write"]⟩ :=
  (verify_token_rejects_iff_short "0123456789").2 (by decide)

/-- C7: an accepted Create inserts a row whose `done` is false, whose
`createdAt` and `updatedAt` are both the server clock, whose watermark is the
request timestamp, and returns that full row carrying the store-assigned id. -/
theorem create_task_success_shape (s : Store) (req : TaskCreate) (now : Int)
    (s' : Store) (task : Task)
    (hok : create_task s req now = .ok (s', task)) :
    task.done = false ∧ task.createdAt = now ∧ task.updatedAt = now ∧
    task.createdAt = task.updatedAt ∧
    task.lastRequestTimestamp = req.request_timestamp ∧
    task.id = s.nextId ∧ task.title = req.title ∧ task.content = req.content ∧
    task.dueDate = req.due_date ∧
    s'.tasks = s.tasks ++ [task] ∧ s'.nextId = s.nextId + 1 := by
  unfold create_task at hok
  split at hok
  · cases hok
  · rw [Except.ok.injEq, Prod.mk.injEq] at hok
    obtain ⟨hs, ht⟩ := hok
    subst hs
    subst ht
    exact ⟨rfl, rfl, rfl, rfl, rfl, rfl, rfl, rfl, rfl, rfl, rfl⟩

/-- Closed instance of the C7 theorem at a concrete creation. -/
theorem create_task_success_shape_witness :
    ∃ s' task, create_task sampleStore ⟨"fresh", "text", "2024-02-02", 9⟩ 4 =
        .ok (s', task) ∧ task.done = false ∧ task.createdAt = 4 ∧
      task.updatedAt = 4 ∧ task.lastRequestTimestamp = 9 ∧ task.id = 2 := by
  refine ⟨_, _, rfl, ?_⟩
  have h := create_task_success_shape sampleStore ⟨"fresh", "text", "2024-02-02", 9⟩ 4 _ _ rfl
  exact ⟨h.1, h.2.1, h.2.2.1, h.2.2.2.2.1, h.2.2.2.2.2.1⟩

/-- C8: List returns a permutation of every stored row, ordered by
`createdAt` descending. -/
theorem list_tasks_sorted_desc (s : Store) :
    (list_tasks s).2.Perm s.tasks ∧
    (list_tasks s).2.Pairwise (fun a b => b.createdAt ≤ a.createdAt) := by
  constructor
  · exact List.mergeSort_perm s.tasks _
  · have htrans : ∀ a b c : Task,
        decide (b.createdAt ≤ a.createdAt) = true →
        decide (c.createdAt ≤ b.createdAt) = true →
        decide (c.createdAt ≤ a.createdAt) = true := by
      intro a b c h1 h2
      simp only [decide_eq_true_eq] at h1 h2 ⊢
      exact le_trans h2 h1
    have htotal : ∀ a b : Task,
        (decide (b.createdAt ≤ a.createdAt) ||
          decide (a.createdAt ≤ b.createdAt)) = true := by
      intro a b
      simp only [Bool.or_eq_true, decide_eq_true_eq]
      exact le_total b.createdAt a.createdAt
    have h := List.sorted_mergeSort htrans htotal s.tasks
    exact h.imp (fun hab => of_decide_eq_true hab)

/-- C9: Get and List never change the store, and what they return is exactly
the stored data: Get yields the stored row for the id (NotFound exactly when
the id is absent) and List yields a permutation of the stored rows. -/
theorem get_list_pure (s : Store) (i : Nat) :
    (list_tasks s).1 = s ∧ (list_tasks s).2.Perm s.tasks ∧
    (∀ s' t, get_task s i = .ok (s', t) → s' = s ∧ findTask s i = some t) ∧
    (get_task s i = .error .notFound ↔ findTask s i = none) := by
  refine ⟨rfl, List.mergeSort_perm s.tasks _, ?_, ?_⟩
  · intro s' t hok
    unfold get_task at hok
    cases h : findTask s i with
    | none => rw [h] at hok; cases hok
    | some u =>
      rw [h] at hok
      rw [Except.ok.injEq, Prod.mk.injEq] at hok
      exact ⟨hok.1.symm, by rw [hok.2]⟩
  · unfold get_task
    cases h : findTask s i with
    | none => simp
    | some u => simp

/-- Closed instance of the C9 theorem at a concrete store. -/
theorem get_list_pure_witness :
    (list_tasks sampleStore).1 = sampleStore ∧
    findTask sampleStore 1 = some sampleTask :=
  ⟨(get_list_pure sampleStore 1).1,
    ((get_list_pure sampleStore 1).2.2.1 sampleStore sampleTask rfl).2⟩

/-- Helper: `find?` by id over a map that preserves every element's id. -/
theorem find?_map_id_preserved (l : List Task) (f : Task → Task)
    (hf : ∀ u, (f u).id = u.id) (j : Nat) :
    (l.map f).find? (fun u => decide (u.id = j)) =
      (l.find? (fun u => decide (u.id = j))).map f := by
  rw [List.find?_map]
  have hp : ((fun u : Task => decide (u.id = j)) ∘ f) =
      (fun u : Task => decide (u.id = j)) := by
    funext u
    simp [Function.comp, hf u]
  rw [hp]

/-- Helper: a watermark entry names a stored row with that watermark. -/
theorem watermarkOf_elim (s : Store) (i : Nat) (w : Int)
    (hw : watermarkOf s i = some w) :
    ∃ cur, findTask s i = some cur ∧ cur.lastRequestTimestamp = w := by
  unfold watermarkOf at hw
  cases h : findTask s i with
  | none => rw [h] at hw; cases hw
  | some c =>
    rw [h] at hw
    exact ⟨c, rfl, by simpa using hw⟩

/-- C1: on a task with stored watermark w, an Update or Delete whose request
timestamp is at most w is rejected Conflict and leaves the whole store
unchanged, while a request with a strictly newer timestamp is admitted. -/
theorem stale_mutation_rejected (s : Store) (i : Nat) (w : Int)
    (ureq : TaskUpdate) (dreq : TaskDelete) (now : Int)
    (hw : watermarkOf s i = some w) :
    (ureq.request_timestamp ≤ w →
      update_task s i ureq now = .error .conflict ∧
      applyOp s (.update i ureq now) = s) ∧
    (dreq.request_timestamp ≤ w →
      delete_task s i dreq = .error .conflict ∧
      applyOp s (.del i dreq) = s) ∧
    (w < ureq.request_timestamp →
      ∃ s2 t2, update_task s i ureq now = .ok (s2, t2)) ∧
    (w < dreq.request_timestamp →
      ∃ s2, delete_task s i dreq = .ok s2) := by
  obtain ⟨cur, hfind, hwm⟩ := watermarkOf_elim s i w hw
  refine ⟨fun hle => ?_, fun hle => ?_, fun hgt => ?_, fun hgt => ?_⟩
  · have hconf : update_task s i ureq now = .error .conflict := by
      simp only [update_task, hfind]
      rw [if_pos (by rw [hwm]; exact hle)]
    exact ⟨hconf, by simp only [applyOp, hconf]⟩
  · have hconf : delete_task s i dreq = .error .conflict := by
      simp only [delete_task, hfind]
      rw [if_pos (by rw [hwm]; exact hle)]
    exact ⟨hconf, by simp only [applyOp, hconf]⟩
  · have hgoal : update_task s i ureq now =
        .ok ({ s with
            tasks := s.tasks.map fun u =>
              if u.id = i then applyFields ureq cur now else u },
          applyFields ureq cur now) := by
      simp only [update_task, hfind]
      rw [if_neg (by rw [hwm]; exact not_le.mpr hgt),
        if_neg (by omega : ¬(suppliedFieldCount ureq + 2 = 0))]
    exact ⟨_, _, hgoal⟩
  · have hgoal : delete_task s i dreq =
        .ok { s with tasks := s.tasks.filter fun u => decide (u.id ≠ i) } := by
      simp only [delete_task, hfind]
      rw [if_neg (by rw [hwm]; exact not_le.mpr hgt)]
    exact ⟨_, hgoal⟩

/-- Closed instance of the C1 theorem at a concrete stale delete. -/
theorem stale_mutation_rejected_witness :
    delete_task sampleStore 1 ⟨5⟩ = .error .conflict :=
  ((stale_mutation_rejected sampleStore 1 5 ⟨none, none, none, some true, 5⟩
    ⟨5⟩ 9 rfl).2.1 (by decide)).1

/-- C4: Create is rejected Conflict exactly when some stored row has the same
title and a watermark at least the request timestamp; otherwise — also when a
same-titled row with a strictly older watermark exists — a fresh row with an
id distinct from every stored row is appended. -/
theorem create_conflict_iff (s : Store) (req : TaskCreate) (now : Int) :
    (create_task s req now = .error .conflict ↔
      ∃ t ∈ s.tasks, t.title = req.title ∧
        req.request_timestamp ≤ t.lastRequestTimestamp) ∧
    ((¬ ∃ t ∈ s.tasks, t.title = req.title ∧
        req.request_timestamp ≤ t.lastRequestTimestamp) →
      ∃ task, create_task s req now =
          .ok ({ tasks := s.tasks ++ [task], nextId := s.nextId + 1 }, task) ∧
        task.id = s.nextId ∧ task.title = req.title ∧
        (s.WF → ∀ t ∈ s.tasks, t.id ≠ task.id)) := by
  have hcond : (s.tasks.any (fun t => decide (t.title = req.title) &&
      decide (req.request_timestamp ≤ t.lastRequestTimestamp)) = true) ↔
      ∃ t ∈ s.tasks, t.title = req.title ∧
        req.request_timestamp ≤ t.lastRequestTimestamp := by
    simp [List.any_eq_true]
  constructor
  · unfold create_task
    split_ifs with h
    · simpa using hcond.mp h
    · constructor
      · intro hcontra; cases hcontra
      · intro hex; exact absurd (hcond.mpr hex) h
  · intro hnot
    unfold create_task
    rw [if_neg (fun h => hnot (hcond.mp h))]
    refine ⟨_, rfl, rfl, rfl, fun hwf t ht => ?_⟩
    exact Nat.ne_of_lt (hwf.1 t ht)

/-- Closed instance of the C4 theorem: same title, older watermark, accepted. -/
theorem create_conflict_iff_witness :
    ∃ task, create_task sampleStore ⟨"demo", "other", "2024-03-03", 6⟩ 4 =
        .ok ({ tasks := sampleStore.tasks ++ [task],
               nextId := sampleStore.nextId + 1 }, task) ∧
      task.id = sampleStore.nextId := by
  obtain ⟨task, hok, hid, -, -⟩ :=
    (create_conflict_iff sampleStore ⟨"demo", "other", "2024-03-03", 6⟩ 4).2
      (by decide)
  exact ⟨task, hok, hid⟩

/-- C5: an accepted Update rewrites only the supplied fields plus `updatedAt`
and the watermark: `id`, `createdAt` and every absent field keep their prior
values and every other row is untouched; in particular an update carrying
only `done` changes exactly `done`, `updatedAt` and the watermark. -/
theorem update_partial_frame (s : Store) (i : Nat) (req : TaskUpdate)
    (now : Int) (t0 : Task) (s' : Store) (t' : Task)
    (hfind : findTask s i = some t0)
    (hok : update_task s i req now = .ok (s', t')) :
    t'.id = t0.id ∧ t'.createdAt = t0.createdAt ∧
    (req.title = none → t'.title = t0.title) ∧
    (req.content = none → t'.content = t0.content) ∧
    (req.due_date = none → t'.dueDate = t0.dueDate) ∧
    (req.done = none → t'.done = t0.done) ∧
    (∀ x, req.title = some x → t'.title = x) ∧
    (∀ x, req.content = some x → t'.content = x) ∧
    (∀ x, req.due_date = some x → t'.dueDate = x) ∧
    (∀ x, req.done = some x → t'.done = x) ∧
    t'.updatedAt = now ∧ t'.lastRequestTimestamp = req.request_timestamp ∧
    s'.nextId = s.nextId ∧ findTask s' i = some t' ∧
    (∀ j, j ≠ i → findTask s' j = findTask s j) := by
  have hid0 : t0.id = i := by
    have := List.find?_some hfind
    simpa using this
  simp only [update_task, hfind] at hok
  by_cases h1 : req.request_timestamp ≤ t0.lastRequestTimestamp
  · rw [if_pos h1] at hok; cases hok
  · rw [if_neg h1,
      if_neg (by omega : ¬(suppliedFieldCount req + 2 = 0))] at hok
    rw [Except.ok.injEq, Prod.mk.injEq] at hok
    obtain ⟨hs, ht⟩ := hok
    subst hs
    subst ht
    have hfpres : ∀ u : Task,
        ((if u.id = i then applyFields req t0 now else u) : Task).id = u.id := by
      intro u
      split_ifs with hu
      · simp [applyFields, hid0, hu]
      · rfl
    refine ⟨rfl, rfl, ?_, ?_, ?_, ?_, ?_, ?_, ?_, ?_, rfl, rfl, rfl, ?_, ?_⟩
    · intro h; simp [applyFields, h]
    · intro h; simp [applyFields, h]
    · intro h; simp [applyFields, h]
    · intro h; simp [applyFields, h]
    · intro x h; simp [applyFields, h]
    · intro x h; simp [applyFields, h]
    · intro x h; simp [applyFields, h]
    · intro x h; simp [applyFields, h]
    · show (s.tasks.map fun u => if u.id = i then applyFields req t0 now else u).find?
          (fun u => decide (u.id = i)) = some (applyFields req t0 now)
      rw [find?_map_id_preserved _ _ hfpres]
      rw [show s.tasks.find? (fun u => decide (u.id = i)) = some t0 from hfind]
      simp [hid0]
    · intro j hj
      show (s.tasks.map fun u => if u.id = i then applyFields req t0 now else u).find?
          (fun u => decide (u.id = j)) = findTask s j
      rw [find?_map_id_preserved _ _ hfpres]
      unfold findTask
      cases hfj : s.tasks.find? (fun u => decide (u.id = j)) with
      | none => simp
      | some tj =>
        have hidj : tj.id = j := by simpa using List.find?_some hfj
        have hne : tj.id ≠ i := by rw [hidj]; exact hj
        simp [hne]

/-- Closed instance of the C5 theorem: a done-only update on the sample row. -/
theorem update_partial_frame_witness :
    ∃ s' t', update_task sampleStore 1 ⟨none, none, none, some true, 8⟩ 3 =
        .ok (s', t') ∧ t'.title = sampleTask.title ∧
      t'.content = sampleTask.content ∧ t'.dueDate = sampleTask.dueDate ∧
      t'.createdAt = sampleTask.createdAt ∧ t'.done = true ∧
      t'.updatedAt = 3 ∧ t'.lastRequestTimestamp = 8 := by
  refine ⟨_, _, rfl, ?_⟩
  have h := update_partial_frame sampleStore 1 ⟨none, none, none, some true, 8⟩
    3 sampleTask _ _ rfl rfl
  exact ⟨h.2.2.1 rfl, h.2.2.2.1 rfl, h.2.2.2.2.1 rfl, h.2.1,
    h.2.2.2.2.2.2.2.2.2.1 true rfl, h.2.2.2.2.2.2.2.2.2.2.1,
    h.2.2.2.2.2.2.2.2.2.2.2.1⟩

/-- C2 evidence: on the sample row (watermark 5), the update supplying no
optional fields at all with request timestamp 6 is accepted at server clock
9 — it advances `updatedAt` to 9 and the watermark to 6 — instead of failing
InvalidRequest: the emptiness rejection in the source tests the SET-clause
list only after the two unconditional clauses were appended, so it can never
fire, and the gate has already run by then. -/
theorem empty_update_accepted_not_invalid :
    suppliedFieldCount ⟨none, none, none, none, 6⟩ = 0 ∧
    ∃ s' t', update_task sampleStore 1 ⟨none, none, none, none, 6⟩ 9 =
        .ok (s', t') ∧
      t'.lastRequestTimestamp = 6 ∧ t'.updatedAt = 9 ∧
      sampleTask.lastRequestTimestamp = 5 :=
  ⟨rfl, _, _, rfl, rfl, rfl, rfl⟩

/-- Helper: `find?` commutes with a filter whose test is implied by the
search predicate. -/
theorem find?_filter_of_imp {α} (p q : α → Bool) (l : List α)
    (h : ∀ u, p u = true → q u = true) :
    (l.filter q).find? p = l.find? p := by
  induction l with
  | nil => rfl
  | cons x xs ih =>
    by_cases hq : q x = true
    · rw [List.filter_cons_of_pos hq]
      by_cases hp : p x = true
      · rw [List.find?_cons_of_pos _ hp, List.find?_cons_of_pos _ hp]
      · rw [List.find?_cons_of_neg _ hp, List.find?_cons_of_neg _ hp, ih]
    · rw [List.filter_cons_of_neg hq]
      have hp : ¬ p x = true := fun hp => hq (h x hp)
      rw [List.find?_cons_of_neg _ hp, ih]

/-- Helper: inversion of a successful Create. -/
theorem create_task_ok_inv (s : Store) (req : TaskCreate) (now : Int)
    (s2 : Store) (t2 : Task) (h : create_task s req now = .ok (s2, t2)) :
    s2.tasks = s.tasks ++ [t2] ∧ s2.nextId = s.nextId + 1 ∧
    t2.id = s.nextId ∧ t2.lastRequestTimestamp = req.request_timestamp := by
  unfold create_task at h
  split at h
  · cases h
  · rw [Except.ok.injEq, Prod.mk.injEq] at h
    obtain ⟨hs, ht⟩ := h
    subst hs
    subst ht
    exact ⟨rfl, rfl, rfl, rfl⟩

/-- Helper: inversion of a successful Update. -/
theorem update_task_ok_inv (s : Store) (j : Nat) (req : TaskUpdate)
    (now : Int) (s2 : Store) (t2 : Task)
    (h : update_task s j req now = .ok (s2, t2)) :
    ∃ cur, findTask s j = some cur ∧ cur.id = j ∧
      cur.lastRequestTimestamp < req.request_timestamp ∧
      t2 = applyFields req cur now ∧
      s2 = { s with tasks := s.tasks.map fun u => if u.id = j then t2 else u } := by
  cases hf : findTask s j with
  | none => simp only [update_task, hf] at h; cases h
  | some cur =>
    simp only [update_task, hf] at h
    have hcid : cur.id = j := by simpa using List.find?_some hf
    by_cases h1 : req.request_timestamp ≤ cur.lastRequestTimestamp
    · rw [if_pos h1] at h; cases h
    · rw [if_neg h1,
        if_neg (by omega : ¬(suppliedFieldCount req + 2 = 0))] at h
      rw [Except.ok.injEq, Prod.mk.injEq] at h
      obtain ⟨hs, ht⟩ := h
      subst hs
      subst ht
      exact ⟨cur, rfl, hcid, not_le.mp h1, rfl, rfl⟩

/-- Helper: inversion of a successful Delete. -/
theorem delete_task_ok_inv (s : Store) (j : Nat) (dreq : TaskDelete)
    (s2 : Store) (h : delete_task s j dreq = .ok s2) :
    ∃ cur, findTask s j = some cur ∧ cur.id = j ∧
      cur.lastRequestTimestamp < dreq.request_timestamp ∧
      s2 = { s with tasks := s.tasks.filter fun u => decide (u.id ≠ j) } := by
  cases hf : findTask s j with
  | none => simp only [delete_task, hf] at h; cases h
  | some cur =>
    simp only [delete_task, hf] at h
    have hcid : cur.id = j := by simpa using List.find?_some hf
    by_cases h1 : dreq.request_timestamp ≤ cur.lastRequestTimestamp
    · rw [if_pos h1] at h; cases h
    · rw [if_neg h1] at h
      rw [Except.ok.injEq] at h
      exact ⟨cur, rfl, hcid, not_le.mp h1, h.symm⟩

/-- Helper: every request leaves `nextId` the same or larger. -/
theorem nextId_mono (s : Store) (op : Op) :
    s.nextId ≤ (applyOp s op).nextId := by
  cases op with
  | create req now =>
    cases hc : create_task s req now with
    | error e => simp only [applyOp, hc]; exact le_refl _
    | ok p =>
      obtain ⟨s2, t2⟩ := p
      have := create_task_ok_inv s req now s2 t2 hc
      simp only [applyOp, hc]
      omega
  | update j req now =>
    cases hu : update_task s j req now with
    | error e => simp only [applyOp, hu]; exact le_refl _
    | ok p =>
      obtain ⟨s2, t2⟩ := p
      obtain ⟨cur, -, -, -, -, hs2⟩ := update_task_ok_inv s j req now s2 t2 hu
      simp only [applyOp, hu, hs2]
      exact le_refl _
  | del j dreq =>
    cases hd : delete_task s j dreq with
    | error e => simp only [applyOp, hd]; exact le_refl _
    | ok s2 =>
      obtain ⟨cur, -, -, -, hs2⟩ := delete_task_ok_inv s j dreq s2 hd
      simp only [applyOp, hd, hs2]
      exact le_refl _

/-- Helper: every request preserves the store's well-formedness. -/
theorem WF_applyOp (s : Store) (op : Op) (hwf : s.WF) :
    (applyOp s op).WF := by
  cases op with
  | create req now =>
    cases hc : create_task s req now with
    | error e => simpa only [applyOp, hc] using hwf
    | ok p =>
      obtain ⟨s2, t2⟩ := p
      obtain ⟨htasks, hnext, hid, -⟩ := create_task_ok_inv s req now s2 t2 hc
      simp only [applyOp, hc]
      constructor
      · intro t ht
        rw [htasks, List.mem_append] at ht
        rw [hnext]
        rcases ht with ht | ht
        · have := hwf.1 t ht; omega
        · rw [List.mem_singleton] at ht
          subst ht
          omega
      · rw [htasks, List.pairwise_append]
        refine ⟨hwf.2, List.pairwise_singleton _ _, fun a ha b hb => ?_⟩
        rw [List.mem_singleton] at hb
        subst hb
        have := hwf.1 a ha
        omega
  | update j req now =>
    cases hu : update_task s j req now with
    | error e => simpa only [applyOp, hu] using hwf
    | ok p =>
      obtain ⟨s2, t2⟩ := p
      obtain ⟨cur, hf, hcid, -, ht2, hs2⟩ := update_task_ok_inv s j req now s2 t2 hu
      have hfpres : ∀ u : Task,
          ((if u.id = j then t2 else u) : Task).id = u.id := by
        intro u
        split_ifs with hu2
        · rw [ht2]; show cur.id = u.id; rw [hcid, hu2]
        · rfl
      simp only [applyOp, hu, hs2]
      constructor
      · intro t ht
        rw [List.mem_map] at ht
        obtain ⟨u, hu3, hu4⟩ := ht
        have := hwf.1 u hu3
        rw [← hu4, hfpres u]
        exact this
      · rw [List.pairwise_map]
        exact hwf.2.imp (fun hab => by
          rw [hfpres, hfpres]; exact hab)
  | del j dreq =>
    cases hd : delete_task s j dreq with
    | error e => simpa only [applyOp, hd] using hwf
    | ok s2 =>
      obtain ⟨cur, -, -, -, hs2⟩ := delete_task_ok_inv s j dreq s2 hd
      simp only [applyOp, hd, hs2]
      constructor
      · intro t ht
        exact hwf.1 t (List.mem_of_mem_filter ht)
      · exact hwf.2.sublist (List.filter_sublist _)

/-- Helper: an id that is absent and below the serial counter stays absent
and below the counter across any single request. -/
theorem idFree_applyOp (s : Store) (i : Nat) (op : Op)
    (hlt : i < s.nextId) (hnone : findTask s i = none) :
    findTask (applyOp s op) i = none ∧ i < (applyOp s op).nextId := by
  refine ⟨?_, lt_of_lt_of_le hlt (nextId_mono s op)⟩
  cases op with
  | create req now =>
    cases hc : create_task s req now with
    | error e => simpa only [applyOp, hc] using hnone
    | ok p =>
      obtain ⟨s2, t2⟩ := p
      obtain ⟨htasks, -, hid, -⟩ := create_task_ok_inv s req now s2 t2 hc
      simp only [applyOp, hc]
      unfold findTask at hnone ⊢
      rw [htasks, List.find?_append, hnone, Option.none_or, List.find?_eq_none]
      intro x hx
      rw [List.mem_singleton] at hx
      subst hx
      simp only [decide_eq_true_eq]
      omega
  | update j req now =>
    cases hu : update_task s j req now with
    | error e => simpa only [applyOp, hu] using hnone
    | ok p =>
      obtain ⟨s2, t2⟩ := p
      obtain ⟨cur, hf, hcid, -, ht2, hs2⟩ := update_task_ok_inv s j req now s2 t2 hu
      have hfpres : ∀ u : Task,
          ((if u.id = j then t2 else u) : Task).id = u.id := by
        intro u
        split_ifs with hu2
        · rw [ht2]; show (applyFields req cur now).id = u.id
          show cur.id = u.id
          rw [hcid, hu2]
        · rfl
      simp only [applyOp, hu, hs2]
      unfold findTask at hnone ⊢
      rw [find?_map_id_preserved s.tasks _ hfpres i, hnone]
      rfl
  | del j dreq =>
    cases hd : delete_task s j dreq with
    | error e => simpa only [applyOp, hd] using hnone
    | ok s2 =>
      obtain ⟨cur, -, -, -, hs2⟩ := delete_task_ok_inv s j dreq s2 hd
      simp only [applyOp, hd, hs2]
      unfold findTask at hnone ⊢
      rw [List.find?_eq_none] at hnone ⊢
      intro x hx
      exact hnone x (List.mem_of_mem_filter hx)

/-- Helper: an id that is absent and below the serial counter is still
absent after any sequence of requests. -/
theorem idFree_applyOps (s : Store) (i : Nat) (ops : List Op)
    (hlt : i < s.nextId) (hnone : findTask s i = none) :
    findTask (applyOps s ops) i = none := by
  induction ops generalizing s with
  | nil => exact hnone
  | cons op ops ih =>
    obtain ⟨h1, h2⟩ := idFree_applyOp s i op hlt hnone
    exact ih (applyOp s op) h2 h1

/-- Helper: a present id sits below the serial counter in a well-formed
store. -/
theorem found_lt_nextId (s : Store) (i : Nat) (cur : Task) (hwf : Store.WF s)
    (hf : findTask s i = some cur) : i < s.nextId := by
  have hmem := List.mem_of_find?_eq_some hf
  have hcid : cur.id = i := by simpa using List.find?_some hf
  have := hwf.1 cur hmem
  omega

/-- Helper: an accepted Update on id i installs its request timestamp as the
new watermark of i. -/
theorem update_ok_watermark (s : Store) (i : Nat) (req : TaskUpdate)
    (now : Int) (s2 : Store) (t2 : Task)
    (h : update_task s i req now = .ok (s2, t2)) :
    watermarkOf s2 i = some req.request_timestamp := by
  obtain ⟨cur, hf, hcid, hlt, ht2, hs2⟩ := update_task_ok_inv s i req now s2 t2 h
  have hfpres : ∀ u : Task,
      ((if u.id = i then t2 else u) : Task).id = u.id := by
    intro u
    split_ifs with hu2
    · rw [ht2]; show cur.id = u.id; rw [hcid, hu2]
    · rfl
  subst hs2
  unfold watermarkOf findTask
  rw [find?_map_id_preserved s.tasks _ hfpres i]
  unfold findTask at hf
  rw [hf]
  simp [hcid, ht2, applyFields]

/-- Helper: one request never lowers a task's stored watermark — it leaves
it, raises it, or removes the row for good. -/
theorem watermark_step (s : Store) (op : Op) (i : Nat) (w : Int)
    (hw : watermarkOf s i = some w) :
    watermarkOf (applyOp s op) i = none ∨
    ∃ w', watermarkOf (applyOp s op) i = some w' ∧ w ≤ w' := by
  obtain ⟨cur, hf, hwm⟩ := watermarkOf_elim s i w hw
  have hcid : cur.id = i := by simpa using List.find?_some hf
  cases op with
  | create req now =>
    cases hc : create_task s req now with
    | error e => right; exact ⟨w, by simpa only [applyOp, hc] using hw, le_refl w⟩
    | ok p =>
      obtain ⟨s2, t2⟩ := p
      obtain ⟨htasks, -, -, -⟩ := create_task_ok_inv s req now s2 t2 hc
      right
      refine ⟨w, ?_, le_refl w⟩
      simp only [applyOp, hc]
      unfold watermarkOf findTask
      unfold findTask at hf
      rw [htasks, List.find?_append, hf]
      simp [hwm]
  | update j req now =>
    cases hu : update_task s j req now with
    | error e => right; exact ⟨w, by simpa only [applyOp, hu] using hw, le_refl w⟩
    | ok p =>
      obtain ⟨s2, t2⟩ := p
      obtain ⟨cur2, hf2, hcid2, hlt2, ht2, hs2⟩ := update_task_ok_inv s j req now s2 t2 hu
      right
      by_cases hij : i = j
      · subst hij
        rw [hf] at hf2
        have hceq : cur = cur2 := Option.some.inj hf2
        refine ⟨req.request_timestamp, ?_, ?_⟩
        · have h2 : applyOp s (.update i req now) = s2 := by
            simp only [applyOp, hu]
          rw [h2]
          exact update_ok_watermark s i req now s2 t2 hu
        · have hll : cur.lastRequestTimestamp = cur2.lastRequestTimestamp := by
            rw [hceq]
          omega
      · have hfpres : ∀ u : Task,
            ((if u.id = j then t2 else u) : Task).id = u.id := by
          intro u
          split_ifs with hu2
          · rw [ht2]; show cur2.id = u.id; rw [hcid2, hu2]
          · rfl
        refine ⟨w, ?_, le_refl w⟩
        simp only [applyOp, hu, hs2]
        unfold watermarkOf findTask
        rw [find?_map_id_preserved s.tasks _ hfpres i]
        unfold findTask at hf
        rw [hf]
        have hne : cur.id ≠ j := by rw [hcid]; exact hij
        simp [hne, hwm]
  | del j dreq =>
    cases hd : delete_task s j dreq with
    | error e => right; exact ⟨w, by simpa only [applyOp, hd] using hw, le_refl w⟩
    | ok s2 =>
      obtain ⟨cur2, hf2, hcid2, hlt2, hs2⟩ := delete_task_ok_inv s j dreq s2 hd
      by_cases hij : i = j
      · left
        subst hij
        simp only [applyOp, hd, hs2]
        unfold watermarkOf findTask
        have hfn : (s.tasks.filter fun u => decide (u.id ≠ i)).find?
            (fun t => decide (t.id = i)) = none := by
          rw [List.find?_eq_none]
          intro x hx
          simp only [List.mem_filter, decide_eq_true_eq] at hx
          simp only [decide_eq_true_eq]
          exact hx.2
        rw [hfn]
        rfl
      · right
        refine ⟨w, ?_, le_refl w⟩
        simp only [applyOp, hd, hs2]
        unfold watermarkOf findTask
        have himp : ∀ u : Task,
            decide (u.id = i) = true → decide (u.id ≠ j) = true := by
          intro u hu
          simp only [decide_eq_true_eq] at hu ⊢
          rw [hu]
          exact hij
        rw [find?_filter_of_imp _ _ s.tasks himp]
        unfold findTask at hf
        rw [hf]
        simp [hwm]

/-- Helper: the stored watermark of an id never decreases along any sequence
of requests, starting from a well-formed store. -/
theorem watermark_mono_ops (i : Nat) :
    ∀ (ops : List Op) (s : Store) (w : Int), Store.WF s →
      watermarkOf s i = some w →
      ∀ w', watermarkOf (applyOps s ops) i = some w' → w ≤ w' := by
  intro ops
  induction ops with
  | nil =>
    intro s w _ hw w' hw'
    have hw2 : watermarkOf s i = some w' := hw'
    rw [hw] at hw2
    exact le_of_eq (Option.some.inj hw2)
  | cons op ops ih =>
    intro s w hwf hw w' hw'
    rcases watermark_step s op i w hw with hnone | ⟨w1, hw1, hle⟩
    · obtain ⟨cur, hf, -⟩ := watermarkOf_elim s i w hw
      have hlt : i < s.nextId := found_lt_nextId s i cur hwf hf
      have hlt2 : i < (applyOp s op).nextId :=
        lt_of_lt_of_le hlt (nextId_mono s op)
      have hnone2 : findTask (applyOp s op) i = none := by
        unfold watermarkOf at hnone
        cases hfo : findTask (applyOp s op) i with
        | none => rfl
        | some c => rw [hfo] at hnone; cases hnone
      have hfin := idFree_applyOps (applyOp s op) i ops hlt2 hnone2
      have hw2 : watermarkOf (applyOps (applyOp s op) ops) i = some w' := hw'
      unfold watermarkOf at hw2
      rw [hfin] at hw2
      cases hw2
    · have := ih (applyOp s op) w1 (WF_applyOp s op hwf) hw1 w' hw'
      omega

/-- C3: starting from any well-formed store in which the task id carries
watermark w, the watermark found after any sequence of requests is at least
w; moreover every accepted Update or Delete on the id carries a request
timestamp strictly above w, and an accepted Update installs its timestamp as
the new watermark — so the accepted request timestamps strictly increase. -/
theorem watermark_monotone_strict (s : Store) (i : Nat) (ops : List Op)
    (w w' : Int) (hwf : Store.WF s) (hw : watermarkOf s i = some w)
    (hw' : watermarkOf (applyOps s ops) i = some w') :
    w ≤ w' ∧
    (∀ req now s2 t2, update_task s i req now = .ok (s2, t2) →
      w < req.request_timestamp ∧
      watermarkOf s2 i = some req.request_timestamp) ∧
    (∀ dreq s2, delete_task s i dreq = .ok s2 →
      w < dreq.request_timestamp) := by
  refine ⟨watermark_mono_ops i ops s w hwf hw w' hw', ?_, ?_⟩
  · intro req now s2 t2 h
    obtain ⟨cur, hf, hcid, hlt, ht2, hs2⟩ := update_task_ok_inv s i req now s2 t2 h
    obtain ⟨cur0, hf0, hwm0⟩ := watermarkOf_elim s i w hw
    rw [hf0] at hf
    have hceq : cur0 = cur := Option.some.inj hf
    have hl0 : cur0.lastRequestTimestamp = cur.lastRequestTimestamp := by
      rw [hceq]
    exact ⟨by omega, update_ok_watermark s i req now s2 t2 h⟩
  · intro dreq s2 h
    obtain ⟨cur, hf, hcid, hlt, hs2⟩ := delete_task_ok_inv s i dreq s2 h
    obtain ⟨cur0, hf0, hwm0⟩ := watermarkOf_elim s i w hw
    rw [hf0] at hf
    have hceq : cur0 = cur := Option.some.inj hf
    have hl0 : cur0.lastRequestTimestamp = cur.lastRequestTimestamp := by
      rw [hceq]
    omega

/-- Closed instance of the C3 theorem: an accepted done-update raises the
sample watermark from 5 to 7. -/
theorem watermark_monotone_strict_witness :
    5 ≤ (7 : Int) :=
  (watermark_monotone_strict sampleStore 1
      [Op.update 1 ⟨none, none, none, some true, 7⟩ 2] 5 7
      ⟨by intro t ht
          simp only [sampleStore, List.mem_singleton] at ht
          subst ht
          decide,
        by show List.Pairwise (fun a b => a.id ≠ b.id) [sampleTask]
           exact List.pairwise_singleton _ _⟩
      rfl rfl).1

/-- C6: a successful Delete is terminal: whatever requests run afterwards,
Get, Update and Delete on the deleted id all answer NotFound, whatever
request timestamps they carry. -/
theorem delete_terminal (s : Store) (i : Nat) (dreq : TaskDelete) (s2 : Store)
    (hwf : Store.WF s) (hdel : delete_task s i dreq = .ok s2) (ops : List Op)
    (ureq : TaskUpdate) (dreq2 : TaskDelete) (now : Int) :
    get_task (applyOps s2 ops) i = .error .notFound ∧
    update_task (applyOps s2 ops) i ureq now = .error .notFound ∧
    delete_task (applyOps s2 ops) i dreq2 = .error .notFound := by
  obtain ⟨cur, hf, hcid, -, hs2⟩ := delete_task_ok_inv s i dreq s2 hdel
  have hlt : i < s.nextId := found_lt_nextId s i cur hwf hf
  have hnone : findTask s2 i = none := by
    rw [hs2]
    unfold findTask
    rw [List.find?_eq_none]
    intro x hx
    simp only [List.mem_filter, decide_eq_true_eq] at hx
    simp only [decide_eq_true_eq]
    exact hx.2
  have hlt2 : i < s2.nextId := by rw [hs2]; exact hlt
  have hfin : findTask (applyOps s2 ops) i = none :=
    idFree_applyOps s2 i ops hlt2 hnone
  refine ⟨?_, ?_, ?_⟩
  · simp only [get_task, hfin]
  · simp only [update_task, hfin]
  · simp only [delete_task, hfin]

/-- Closed instance of the C6 theorem: after deleting the sample task, Get
answers NotFound even for a very new timestamp. -/
theorem delete_terminal_witness :
    ∃ s2, delete_task sampleStore 1 ⟨7⟩ = .ok s2 ∧
      get_task (applyOps s2 []) 1 = .error .notFound := by
  refine ⟨_, rfl, ?_⟩
  exact (delete_terminal sampleStore 1 ⟨7⟩ _
    ⟨by intro t ht
        simp only [sampleStore, List.mem_singleton] at ht
        subst ht
        decide,
      by show List.Pairwise (fun a b => a.id ≠ b.id) [sampleTask]
         exact List.pairwise_singleton _ _⟩
    rfl [] ⟨none, none, none, none, 99⟩ ⟨99⟩ 0).1

end TaskManager
